import Mathlib

/-!
Verification of the shiptivitas reordering engine (src/server.js).

The PUT /api/v1/clients/:id handler is embedded as a pure function over an
explicit store state.  Each `stmt.run(...)` of the source becomes one update
of the in-Lean database list together with one entry appended to an update
log, so that "no updates were issued" is expressible.  The in-memory
`clients` array of the source (read once at the top of the handler) is
threaded separately from the evolving database, exactly as in the source.
-/

set_option maxHeartbeats 1000000

namespace Shiptivitas

/-- A row of the `clients` table: the fields the reordering engine touches. -/
structure Client where
  id : Nat
  status : String
  priority : Int
  deriving Repr, DecidableEq

/-- One `stmt.run` call issued against the store
(`UPDATE clients SET priority = ? WHERE id = ?` or
`UPDATE clients SET status = ?, priority = ? WHERE id = ?`). -/
inductive UpdateOp where
  | setPriority (id : Nat) (priority : Int)
  | setStatusPriority (id : Nat) (status : String) (priority : Int)
  deriving Repr, DecidableEq

/-- The database together with the log of updates issued so far. -/
structure Store where
  db : List Client
  log : List UpdateOp
  deriving Repr, DecidableEq

/-- `UPDATE clients SET priority = ? WHERE id = ?`. -/
def updatePriority (s : Store) (cid : Nat) (p : Int) : Store :=
  ⟨s.db.map (fun c => if c.id = cid then { c with priority := p } else c),
   s.log ++ [UpdateOp.setPriority cid p]⟩

/-- `UPDATE clients SET status = ?, priority = ? WHERE id = ?`. -/
def updateStatusPriority (s : Store) (cid : Nat) (st : String) (p : Int) : Store :=
  ⟨s.db.map (fun c => if c.id = cid then { c with status := st, priority := p } else c),
   s.log ++ [UpdateOp.setStatusPriority cid st p]⟩

/-- JS truthiness of the request's `status` field (`if (status)`):
`undefined` and the empty string are falsy. -/
def truthyStatus : Option String → Bool
  | none => false
  | some s => s != ""

/-- JS truthiness of the request's `priority` field (`if (priority)`):
`undefined` and `0` are falsy. -/
def truthyPriority : Option Int → Bool
  | none => false
  | some p => p != 0

/-- The comparison `moveClient.status === status` of the source, where
`status` is the raw request field: a string is never `===` to `undefined`. -/
def statusMatches (cs : String) (st : Option String) : Bool :=
  match st with
  | none => false
  | some s => cs == s

/-- `clients.find(moveClient => (moveClient.priority === currentPriority) &&
(moveClient.status === status))`. -/
def findSlot (snapshot : List Client) (st : Option String) (cur : Int) : Option Client :=
  snapshot.find? (fun c => c.priority == cur && statusMatches c.status st)

/-- The `while (currentPriority != oldPriority)` loop of the moving-up case
(lines 160-170): fetch the snapshot occupant of the current slot, advance the
counter, and if an occupant was found set its priority to the advanced
counter.  Fuel makes the recursion structural; the source loop is entered
only when `oldPriority > priority`, where `(old - cur).toNat` fuel is exact. -/
def runUp (snapshot : List Client) (st : Option String) (old : Int) :
    Nat → Int → Store → Store
  | 0, _, s => s
  | fuel + 1, cur, s =>
    if cur = old then s
    else
      let s2 := match findSlot snapshot st cur with
        | some mc => updatePriority s mc.id (cur + 1)
        | none => s
      runUp snapshot st old fuel (cur + 1) s2

/-- The `while (currentPriority != oldPriority)` loop of the moving-down case
(lines 174-184), mirror of `runUp` with the counter decreasing. -/
def runDown (snapshot : List Client) (st : Option String) (old : Int) :
    Nat → Int → Store → Store
  | 0, _, s => s
  | fuel + 1, cur, s =>
    if cur = old then s
    else
      let s2 := match findSlot snapshot st cur with
        | some mc => updatePriority s mc.id (cur - 1)
        | none => s
      runDown snapshot st old fuel (cur - 1) s2

/-- The `maxPriority` scan of the status-only branch (lines 199-209):
fold starting at 0, taking `clients[i].priority` whenever it exceeds the
accumulator and the row is in the requested lane. -/
def maxLanePriority (snapshot : List Client) (st : Option String) : Int :=
  snapshot.foldl
    (fun m c => if m < c.priority ∧ statusMatches c.status st then c.priority else m) 0

/-- The pull-up loop over a refreshed snapshot (lines 221-229 and 254-260):
for each row of the snapshot in the old lane with priority above the target's
old priority, issue an update decrementing that row's priority. -/
def pullUp (snapshot : List Client) (oldStatus : String) (oldPriority : Int)
    (s : Store) : Store :=
  snapshot.foldl
    (fun acc c =>
      if oldPriority < c.priority ∧ c.status = oldStatus then
        updatePriority acc c.id (c.priority - 1)
      else acc) s

/-- The push-down loop of the status-and-priority branch (lines 240-247):
for each row of the in-memory snapshot in the requested lane with priority at
least the requested priority, issue an update incrementing that row. -/
def pushDown (snapshot : List Client) (st : Option String) (p : Int)
    (s : Store) : Store :=
  snapshot.foldl
    (fun acc c =>
      if p ≤ c.priority ∧ statusMatches c.status st then
        updatePriority acc c.id (c.priority + 1)
      else acc) s

/-- Line 237, `client.status = status`: mutates the first array element found
by `clients.find(client => client.id === id)`. -/
def setStatusFirst : List Client → Nat → String → List Client
  | [], _, _ => []
  | c :: rest, cid, st =>
    if c.id = cid then { c with status := st } :: rest
    else c :: setStatusFirst rest cid st

/-- The PUT `/api/v1/clients/:id` handler body (lines 117-263): reads the
full table into `clients`, classifies the change, runs the (not mutually
exclusive) adjustment branches, and the final `db` is what the closing
`select * from clients` returns.  When the id matches no row the source
would fault on `client.status`; that case is outside every claim's
preconditions and is embedded as returning the store unchanged. -/
def reorder (db0 : List Client) (cid : Nat) (status : Option String)
    (priority : Option Int) : Store :=
  match db0.find? (fun c => c.id == cid) with
  | none => ⟨db0, []⟩
  | some client =>
    let statusHasChanged : Bool :=
      match status with
      | some s => s != "" && s != client.status
      | none => false
    let priorityHasChanged : Bool :=
      match priority with
      | some p => p != 0 && p != client.priority
      | none => false
    let s0 : Store := ⟨db0, []⟩
    let s1 :=
      if priorityHasChanged then
        let oldPriority := client.priority
        let p := priority.getD 0
        let s1a :=
          if p < oldPriority then
            runUp db0 status oldPriority ((oldPriority - p).toNat) p s0
          else
            runDown db0 status oldPriority ((p - oldPriority).toNat) p s0
        updatePriority s1a client.id p
      else s0
    let s2 :=
      if statusHasChanged && !(truthyPriority priority) then
        let st := status.getD ""
        let newPriority := maxLanePriority db0 status + 1
        let s2a := updateStatusPriority s1 cid st newPriority
        pullUp s2a.db client.status client.priority s2a
      else s1
    let s3 :=
      if statusHasChanged && truthyPriority priority then
        let st := status.getD ""
        let p := priority.getD 0
        let snapshot2 := setStatusFirst db0 cid st
        let s3a := pushDown snapshot2 status p s2
        let s3b := updateStatusPriority s3a cid st p
        pullUp s3b.db client.status client.priority s3b
      else s2
    s3

/-! ### Pointwise description of the shift loops

`runUp`/`runDown` transform the database by a `List.map`; the per-client
function is captured by `upFun`/`downFun`, which mirror the loops but act on
a single tracked client. -/

/-- Action of the moving-up loop on one tracked client. -/
def upFun (snapshot : List Client) (st : Option String) (old : Int) :
    Nat → Int → Client → Client
  | 0, _, c => c
  | fuel + 1, cur, c =>
    if cur = old then c
    else
      let c2 := match findSlot snapshot st cur with
        | some mc => if c.id = mc.id then { c with priority := cur + 1 } else c
        | none => c
      upFun snapshot st old fuel (cur + 1) c2

/-- Action of the moving-down loop on one tracked client. -/
def downFun (snapshot : List Client) (st : Option String) (old : Int) :
    Nat → Int → Client → Client
  | 0, _, c => c
  | fuel + 1, cur, c =>
    if cur = old then c
    else
      let c2 := match findSlot snapshot st cur with
        | some mc => if c.id = mc.id then { c with priority := cur - 1 } else c
        | none => c
      downFun snapshot st old fuel (cur - 1) c2

theorem updatePriority_db (s : Store) (cid : Nat) (p : Int) :
    (updatePriority s cid p).db =
      s.db.map (fun c => if c.id = cid then { c with priority := p } else c) := rfl

theorem runUp_db (snapshot : List Client) (st : Option String) (old : Int) :
    ∀ (fuel : Nat) (cur : Int) (s : Store),
      (runUp snapshot st old fuel cur s).db =
        s.db.map (upFun snapshot st old fuel cur) := by
  intro fuel
  induction fuel with
  | zero =>
    intro cur s
    simp [runUp, upFun]
  | succ n ih =>
    intro cur s
    by_cases h : cur = old
    · simp [runUp, upFun, h]
    · simp only [runUp, upFun, if_neg h]
      cases hf : findSlot snapshot st cur with
      | none => simp [ih]
      | some mc =>
        rw [ih]
        simp [updatePriority, List.map_map, Function.comp]

theorem runDown_db (snapshot : List Client) (st : Option String) (old : Int) :
    ∀ (fuel : Nat) (cur : Int) (s : Store),
      (runDown snapshot st old fuel cur s).db =
        s.db.map (downFun snapshot st old fuel cur) := by
  intro fuel
  induction fuel with
  | zero =>
    intro cur s
    simp [runDown, downFun]
  | succ n ih =>
    intro cur s
    by_cases h : cur = old
    · simp [runDown, downFun, h]
    · simp only [runDown, downFun, if_neg h]
      cases hf : findSlot snapshot st cur with
      | none => simp [ih]
      | some mc =>
        rw [ih]
        simp [updatePriority, List.map_map, Function.comp]

/-- With the request's `status` field absent, the slot lookup never matches:
`moveClient.status === undefined` is false for every row. -/
theorem findSlot_none (snapshot : List Client) (cur : Int) :
    findSlot snapshot none cur = none := by
  apply List.find?_eq_none.2
  intro c _
  simp [statusMatches]

/-- With `status` absent the shift loops issue no updates and leave the
store untouched. -/
theorem runUp_status_none (snapshot : List Client) (old : Int) :
    ∀ (fuel : Nat) (cur : Int) (s : Store),
      runUp snapshot none old fuel cur s = s := by
  intro fuel
  induction fuel with
  | zero => intro cur s; simp [runUp]
  | succ n ih =>
    intro cur s
    by_cases h : cur = old
    · simp [runUp, h]
    · simp [runUp, if_neg h, findSlot_none, ih]

theorem runDown_status_none (snapshot : List Client) (old : Int) :
    ∀ (fuel : Nat) (cur : Int) (s : Store),
      runDown snapshot none old fuel cur s = s := by
  intro fuel
  induction fuel with
  | zero => intro cur s; simp [runDown]
  | succ n ih =>
    intro cur s
    by_cases h : cur = old
    · simp [runDown, h]
    · simp [runDown, if_neg h, findSlot_none, ih]

/-- Whatever `findSlot` returns is a snapshot row in the requested lane at
the requested priority. -/
theorem findSlot_spec (snapshot : List Client) (lane : String) (cur : Int)
    (mc : Client) (h : findSlot snapshot (some lane) cur = some mc) :
    mc ∈ snapshot ∧ mc.priority = cur ∧ mc.status = lane := by
  refine ⟨List.mem_of_find?_eq_some h, ?_, ?_⟩
  · have := List.find?_some h
    simp only [Bool.and_eq_true, beq_iff_eq, statusMatches] at this
    exact this.1
  · have := List.find?_some h
    simp only [Bool.and_eq_true, beq_iff_eq, statusMatches] at this
    exact this.2

/-- When lane priorities are injective, the occupant found for a client's own
slot is that client itself. -/
theorem findSlot_self (snapshot : List Client) (lane : String) (c : Client)
    (hmem : c ∈ snapshot) (hlane : c.status = lane)
    (hinj : ∀ a ∈ snapshot, ∀ b ∈ snapshot, a.status = lane → b.status = lane →
      a.priority = b.priority → a = b) :
    findSlot snapshot (some lane) c.priority = some c := by
  have hsome : (snapshot.find?
      (fun x => x.priority == c.priority && statusMatches x.status (some lane))).isSome := by
    rw [List.find?_isSome]
    exact ⟨c, hmem, by simp [statusMatches, hlane]⟩
  rcases Option.isSome_iff_exists.1 hsome with ⟨mc, hmc⟩
  have hspec := findSlot_spec snapshot lane c.priority mc hmc
  have : mc = c := hinj mc hspec.1 c hmem hspec.2.2 hlane hspec.2.1
  rw [findSlot, hmc, this]

/-- A client whose id matches no occupant of the scanned slots passes through
the moving-up loop unchanged. -/
theorem upFun_skip (snapshot : List Client) (st : Option String) (old : Int) :
    ∀ (fuel : Nat) (cur : Int) (x : Client),
      (∀ k : Int, cur ≤ k → k < cur + fuel →
        ∀ mc, findSlot snapshot st k = some mc → mc.id ≠ x.id) →
      upFun snapshot st old fuel cur x = x := by
  intro fuel
  induction fuel with
  | zero => intro cur x _; simp [upFun]
  | succ n ih =>
    intro cur x h
    by_cases hcur : cur = old
    · simp [upFun, hcur]
    · simp only [upFun, if_neg hcur]
      cases hf : findSlot snapshot st cur with
      | none =>
        exact ih (cur + 1) x (fun k hk1 hk2 mc hmc =>
          h k (by omega) (by push_cast at hk2 ⊢; omega) mc hmc)
      | some mc =>
        have hne : mc.id ≠ x.id :=
          h cur le_rfl (by push_cast; omega) mc hf
        simp only [hf]
        rw [if_neg (fun he => hne he.symm)]
        exact ih (cur + 1) x (fun k hk1 hk2 mc' hmc' =>
          h k (by omega) (by push_cast at hk2 ⊢; omega) mc' hmc')

/-- A client whose id matches exactly the occupant of slot `j` inside the
scanned range leaves the moving-up loop with priority `j + 1`. -/
theorem upFun_hit (snapshot : List Client) (st : Option String) (old j : Int)
    (mc : Client) :
    ∀ (fuel : Nat) (cur : Int) (x : Client),
      cur + fuel ≤ old →
      cur ≤ j → j < cur + fuel →
      findSlot snapshot st j = some mc → mc.id = x.id →
      (∀ k : Int, cur ≤ k → k < cur + fuel → k ≠ j →
        ∀ mk, findSlot snapshot st k = some mk → mk.id ≠ x.id) →
      upFun snapshot st old fuel cur x = { x with priority := j + 1 } := by
  intro fuel
  induction fuel with
  | zero =>
    intro cur x _ h1 h2 _ _ _
    push_cast at h2; omega
  | succ n ih =>
    intro cur x hold h1 h2 hfind hid hothers
    have hcur : cur ≠ old := by push_cast at hold; omega
    simp only [upFun, if_neg hcur]
    by_cases hj : cur = j
    · subst hj
      simp only [hfind]
      rw [if_pos hid.symm]
      exact upFun_skip snapshot st old n (cur + 1)
        { x with priority := cur + 1 }
        (fun k hk1 hk2 mk hmk =>
          hothers k (by omega) (by push_cast at hk2 ⊢; omega) (by omega) mk hmk)
    · have hstep : (match findSlot snapshot st cur with
          | some mk => if x.id = mk.id then { x with priority := cur + 1 } else x
          | none => x) = x := by
        cases hf : findSlot snapshot st cur with
        | none => simp only [hf]
        | some mk =>
          have hne : mk.id ≠ x.id :=
            hothers cur le_rfl (by push_cast; omega) hj mk hf
          simp only [hf]
          rw [if_neg (fun he => hne he.symm)]
      rw [hstep]
      exact ih (cur + 1) x (by push_cast at hold ⊢; omega) (by omega)
        (by push_cast at h2 ⊢; omega) hfind hid
        (fun k hk1 hk2 hkj mk hmk =>
          hothers k (by omega) (by push_cast at hk2 ⊢; omega) hkj mk hmk)

/-- Mirror of `upFun_skip` for the moving-down loop: scanned slots are
`(cur - fuel, cur]`. -/
theorem downFun_skip (snapshot : List Client) (st : Option String) (old : Int) :
    ∀ (fuel : Nat) (cur : Int) (x : Client),
      (∀ k : Int, cur - fuel < k → k ≤ cur →
        ∀ mc, findSlot snapshot st k = some mc → mc.id ≠ x.id) →
      downFun snapshot st old fuel cur x = x := by
  intro fuel
  induction fuel with
  | zero => intro cur x _; simp [downFun]
  | succ n ih =>
    intro cur x h
    by_cases hcur : cur = old
    · simp [downFun, hcur]
    · simp only [downFun, if_neg hcur]
      cases hf : findSlot snapshot st cur with
      | none =>
        exact ih (cur - 1) x (fun k hk1 hk2 mc hmc =>
          h k (by push_cast at hk1 ⊢; omega) (by omega) mc hmc)
      | some mc =>
        have hne : mc.id ≠ x.id :=
          h cur (by push_cast; omega) le_rfl mc hf
        simp only [hf]
        rw [if_neg (fun he => hne he.symm)]
        exact ih (cur - 1) x (fun k hk1 hk2 mc' hmc' =>
          h k (by push_cast at hk1 ⊢; omega) (by omega) mc' hmc')

/-- Mirror of `upFun_hit` for the moving-down loop: the occupant of slot `j`
leaves with priority `j - 1`. -/
theorem downFun_hit (snapshot : List Client) (st : Option String) (old j : Int)
    (mc : Client) :
    ∀ (fuel : Nat) (cur : Int) (x : Client),
      old ≤ cur - fuel →
      cur - fuel < j → j ≤ cur →
      findSlot snapshot st j = some mc → mc.id = x.id →
      (∀ k : Int, cur - fuel < k → k ≤ cur → k ≠ j →
        ∀ mk, findSlot snapshot st k = some mk → mk.id ≠ x.id) →
      downFun snapshot st old fuel cur x = { x with priority := j - 1 } := by
  intro fuel
  induction fuel with
  | zero =>
    intro cur x _ h1 h2 _ _ _
    push_cast at h1; omega
  | succ n ih =>
    intro cur x hold h1 h2 hfind hid hothers
    have hcur : cur ≠ old := by push_cast at hold; omega
    simp only [downFun, if_neg hcur]
    by_cases hj : cur = j
    · subst hj
      simp only [hfind]
      rw [if_pos hid.symm]
      exact downFun_skip snapshot st old n (cur - 1)
        { x with priority := cur - 1 }
        (fun k hk1 hk2 mk hmk =>
          hothers k (by push_cast at hk1 ⊢; omega) (by omega) (by omega) mk hmk)
    · have hstep : (match findSlot snapshot st cur with
          | some mk => if x.id = mk.id then { x with priority := cur - 1 } else x
          | none => x) = x := by
        cases hf : findSlot snapshot st cur with
        | none => simp only [hf]
        | some mk =>
          have hne : mk.id ≠ x.id :=
            hothers cur (by push_cast; omega) le_rfl hj mk hf
          simp only [hf]
          rw [if_neg (fun he => hne he.symm)]
      rw [hstep]
      exact ih (cur - 1) x (by push_cast at hold ⊢; omega)
        (by push_cast at h1 ⊢; omega) (by omega) hfind hid
        (fun k hk1 hk2 hkj mk hmk =>
          hothers k (by push_cast at hk1 ⊢; omega) (by omega) hkj mk hmk)

/-- Once the counter equals the old priority, the while-condition fails and
the loop exits regardless of remaining fuel. -/
theorem runUp_exit (snapshot : List Client) (st : Option String) (old : Int) :
    ∀ (fuel : Nat) (s : Store), runUp snapshot st old fuel old s = s := by
  intro fuel
  induction fuel with
  | zero => intro s; simp [runUp]
  | succ n ih => intro s; simp [runUp]

theorem runDown_exit (snapshot : List Client) (st : Option String) (old : Int) :
    ∀ (fuel : Nat) (s : Store), runDown snapshot st old fuel old s = s := by
  intro fuel
  induction fuel with
  | zero => intro s; simp [runDown]
  | succ n ih => intro s; simp [runDown]

/-- The moving-up loop run with its exact fuel has already reached the
while-condition's exit: extra fuel changes nothing, so the loop terminates
after exactly that many iterations. -/
theorem runUp_fuel_stable (snapshot : List Client) (st : Option String) (old : Int) :
    ∀ (fuel : Nat) (cur : Int) (s : Store), cur + fuel = old →
      ∀ extra : Nat,
        runUp snapshot st old (fuel + extra) cur s = runUp snapshot st old fuel cur s := by
  intro fuel
  induction fuel with
  | zero =>
    intro cur s h extra
    have hco : old = cur := by push_cast at h; omega
    subst hco
    rw [Nat.zero_add, runUp_exit]
    simp [runUp]
  | succ n ih =>
    intro cur s h extra
    have hcur : cur ≠ old := by push_cast at h; omega
    have hrearrange : n + 1 + extra = (n + extra) + 1 := by omega
    rw [hrearrange]
    simp only [runUp, if_neg hcur]
    exact ih (cur + 1) _ (by push_cast at h ⊢; omega) extra

theorem runDown_fuel_stable (snapshot : List Client) (st : Option String) (old : Int) :
    ∀ (fuel : Nat) (cur : Int) (s : Store), cur - fuel = old →
      ∀ extra : Nat,
        runDown snapshot st old (fuel + extra) cur s = runDown snapshot st old fuel cur s := by
  intro fuel
  induction fuel with
  | zero =>
    intro cur s h extra
    have hco : old = cur := by push_cast at h; omega
    subst hco
    rw [Nat.zero_add, runDown_exit]
    simp [runDown]
  | succ n ih =>
    intro cur s h extra
    have hcur : cur ≠ old := by push_cast at h; omega
    have hrearrange : n + 1 + extra = (n + extra) + 1 := by omega
    rw [hrearrange]
    simp only [runDown, if_neg hcur]
    exact ih (cur - 1) _ (by push_cast at h ⊢; omega) extra

/-! ### The identifier column is never written -/

theorem updatePriority_map_id (s : Store) (cid : Nat) (p : Int) :
    (updatePriority s cid p).db.map Client.id = s.db.map Client.id := by
  simp only [updatePriority, List.map_map]
  apply List.map_congr_left
  intro c _
  by_cases h : c.id = cid <;> simp [Function.comp, h]

theorem updateStatusPriority_map_id (s : Store) (cid : Nat) (st : String) (p : Int) :
    (updateStatusPriority s cid st p).db.map Client.id = s.db.map Client.id := by
  simp only [updateStatusPriority, List.map_map]
  apply List.map_congr_left
  intro c _
  by_cases h : c.id = cid <;> simp [Function.comp, h]

theorem runUp_map_id (snapshot : List Client) (st : Option String) (old : Int) :
    ∀ (fuel : Nat) (cur : Int) (s : Store),
      (runUp snapshot st old fuel cur s).db.map Client.id = s.db.map Client.id := by
  intro fuel
  induction fuel with
  | zero => intro cur s; simp [runUp]
  | succ n ih =>
    intro cur s
    by_cases h : cur = old
    · simp [runUp, h]
    · simp only [runUp, if_neg h]
      cases hf : findSlot snapshot st cur with
      | none => simp only [hf]; exact ih _ _
      | some mc =>
        simp only [hf]
        rw [ih, updatePriority_map_id]

theorem runDown_map_id (snapshot : List Client) (st : Option String) (old : Int) :
    ∀ (fuel : Nat) (cur : Int) (s : Store),
      (runDown snapshot st old fuel cur s).db.map Client.id = s.db.map Client.id := by
  intro fuel
  induction fuel with
  | zero => intro cur s; simp [runDown]
  | succ n ih =>
    intro cur s
    by_cases h : cur = old
    · simp [runDown, h]
    · simp only [runDown, if_neg h]
      cases hf : findSlot snapshot st cur with
      | none => simp only [hf]; exact ih _ _
      | some mc =>
        simp only [hf]
        rw [ih, updatePriority_map_id]

theorem pullUp_map_id (snapshot : List Client) (oldStatus : String) (oldPriority : Int) :
    ∀ (s : Store),
      (pullUp snapshot oldStatus oldPriority s).db.map Client.id = s.db.map Client.id := by
  induction snapshot with
  | nil => intro s; simp [pullUp]
  | cons c rest ih =>
    intro s
    simp only [pullUp, List.foldl_cons]
    by_cases h : oldPriority < c.priority ∧ c.status = oldStatus
    · rw [if_pos h]
      have := ih (updatePriority s c.id (c.priority - 1))
      simp only [pullUp] at this
      rw [this, updatePriority_map_id]
    · rw [if_neg h]
      have := ih s
      simp only [pullUp] at this
      exact this

theorem pushDown_map_id (snapshot : List Client) (st : Option String) (p : Int) :
    ∀ (s : Store),
      (pushDown snapshot st p s).db.map Client.id = s.db.map Client.id := by
  induction snapshot with
  | nil => intro s; simp [pushDown]
  | cons c rest ih =>
    intro s
    simp only [pushDown, List.foldl_cons]
    by_cases h : p ≤ c.priority ∧ statusMatches c.status st
    · rw [if_pos h]
      have := ih (updatePriority s c.id (c.priority + 1))
      simp only [pushDown] at this
      rw [this, updatePriority_map_id]
    · rw [if_neg h]
      have := ih s
      simp only [pushDown] at this
      exact this

/-! ### Pointwise description of the pull-up loop -/

/-- Action of the pull-up loop on one tracked client. -/
def pullFun (snapshot : List Client) (oldStatus : String) (oldPriority : Int)
    (x : Client) : Client :=
  snapshot.foldl
    (fun acc c =>
      if oldPriority < c.priority ∧ c.status = oldStatus then
        (if acc.id = c.id then { acc with priority := c.priority - 1 } else acc)
      else acc) x

theorem pullUp_db (oldStatus : String) (oldPriority : Int) :
    ∀ (snapshot : List Client) (s : Store),
      (pullUp snapshot oldStatus oldPriority s).db =
        s.db.map (pullFun snapshot oldStatus oldPriority) := by
  intro snapshot
  induction snapshot with
  | nil =>
    intro s
    show s.db = s.db.map (fun x => x)
    simp
  | cons c rest ih =>
    intro s
    simp only [pullUp, List.foldl_cons]
    by_cases h : oldPriority < c.priority ∧ c.status = oldStatus
    · rw [if_pos h]
      have hrec := ih (updatePriority s c.id (c.priority - 1))
      simp only [pullUp] at hrec
      rw [hrec, updatePriority_db, List.map_map]
      apply List.map_congr_left
      intro x _
      simp only [Function.comp, pullFun, List.foldl_cons, if_pos h]
    · rw [if_neg h]
      have hrec := ih s
      simp only [pullUp] at hrec
      rw [hrec]
      apply List.map_congr_left
      intro x _
      simp only [pullFun, List.foldl_cons, if_neg h]

/-- The pull-up fold leaves a client alone when its id appears nowhere in the
scanned snapshot. -/
theorem pullFun_absent (oldStatus : String) (oldPriority : Int) :
    ∀ (snapshot : List Client) (x : Client),
      (∀ c ∈ snapshot, c.id ≠ x.id) →
      pullFun snapshot oldStatus oldPriority x = x := by
  intro snapshot
  induction snapshot with
  | nil => intro x _; simp [pullFun]
  | cons c rest ih =>
    intro x h
    simp only [pullFun, List.foldl_cons]
    have hcx : x.id ≠ c.id := fun he => h c (List.mem_cons_self c rest) he.symm
    have hstep : (if oldPriority < c.priority ∧ c.status = oldStatus then
        (if x.id = c.id then { x with priority := c.priority - 1 } else x)
      else x) = x := by
      by_cases hc : oldPriority < c.priority ∧ c.status = oldStatus
      · rw [if_pos hc, if_neg hcx]
      · rw [if_neg hc]
    rw [hstep]
    exact ih x (fun c' hc' => h c' (List.mem_cons_of_mem c hc'))

/-- For a snapshot with distinct ids, the pull-up fold acts on a member of
that snapshot exactly as the source comment says: decrement it when it sits
below the vacated slot of the old lane, leave it alone otherwise. -/
theorem pullFun_mem (oldStatus : String) (oldPriority : Int)
    (snapshot : List Client) (x : Client)
    (hmem : x ∈ snapshot) (hids : (snapshot.map Client.id).Nodup) :
    pullFun snapshot oldStatus oldPriority x =
      if oldPriority < x.priority ∧ x.status = oldStatus then
        { x with priority := x.priority - 1 }
      else x := by
  rcases List.append_of_mem hmem with ⟨l1, l2, rfl⟩
  have hids' := hids
  simp only [List.map_append, List.map_cons, List.nodup_append] at hids'
  have hx1 : ∀ c ∈ l1, c.id ≠ x.id := by
    intro c hc he
    exact hids'.2.2 (List.mem_map.2 ⟨c, hc, rfl⟩) (by simp [he])
  have hx2 : ∀ c ∈ l2, c.id ≠ x.id := by
    intro c hc he
    have hnd := hids'.2.1
    rw [List.nodup_cons] at hnd
    exact hnd.1 (he ▸ List.mem_map.2 ⟨c, hc, rfl⟩)
  have hsplit : pullFun (l1 ++ x :: l2) oldStatus oldPriority x =
      pullFun (x :: l2) oldStatus oldPriority
        (pullFun l1 oldStatus oldPriority x) := by
    simp [pullFun, List.foldl_append]
  rw [hsplit, pullFun_absent oldStatus oldPriority l1 x hx1]
  by_cases hc : oldPriority < x.priority ∧ x.status = oldStatus
  · rw [if_pos hc]
    have hstep : pullFun (x :: l2) oldStatus oldPriority x =
        pullFun l2 oldStatus oldPriority { x with priority := x.priority - 1 } := by
      simp [pullFun, List.foldl_cons, hc]
    rw [hstep]
    exact pullFun_absent oldStatus oldPriority l2 _ hx2
  · rw [if_neg hc]
    have hstep : pullFun (x :: l2) oldStatus oldPriority x =
        pullFun l2 oldStatus oldPriority x := by
      simp [pullFun, List.foldl_cons, hc]
    rw [hstep]
    exact pullFun_absent oldStatus oldPriority l2 x hx2

/-! ### The max-priority scan of the status-only branch -/

theorem maxLanePriority_foldl (lane : String) :
    ∀ (snapshot : List Client) (m : Int),
      snapshot.foldl
        (fun m c => if m < c.priority ∧ statusMatches c.status (some lane)
          then c.priority else m) m =
      ((snapshot.filter (fun c => c.status == lane)).map Client.priority).foldl max m := by
  intro snapshot
  induction snapshot with
  | nil => intro m; simp
  | cons c rest ih =>
    intro m
    simp only [List.foldl_cons]
    by_cases hl : c.status = lane
    · have hfilter : (c :: rest).filter (fun c => c.status == lane) =
          c :: rest.filter (fun c => c.status == lane) := by
        simp [List.filter_cons, hl]
      rw [hfilter]
      simp only [List.map_cons, List.foldl_cons]
      have hcond : (if m < c.priority ∧ statusMatches c.status (some lane)
          then c.priority else m) = max m c.priority := by
        simp only [statusMatches, beq_iff_eq, hl]
        rcases lt_or_le m c.priority with h | h
        · simp [h, max_eq_right h.le]
        · rw [if_neg (by omega), max_eq_left h]
      rw [hcond, ih]
    · have hfilter : (c :: rest).filter (fun c => c.status == lane) =
          rest.filter (fun c => c.status == lane) := by
        simp [List.filter_cons, hl]
      rw [hfilter]
      have hcond : (if m < c.priority ∧ statusMatches c.status (some lane)
          then c.priority else m) = m := by
        simp [statusMatches, hl]
      rw [hcond, ih]

/-- A fold of `max` over positive integers starting at `0` computes their
maximum, i.e. `List.max?` with default `0`. -/
theorem foldl_max_pos :
    ∀ (l : List Int), (∀ x ∈ l, 0 < x) →
      l.foldl max 0 = (l.max?).getD 0 := by
  intro l
  cases l with
  | nil => intro _; simp
  | cons a as =>
    intro h
    have ha : 0 < a := h a (List.mem_cons_self a as)
    simp only [List.foldl_cons, List.max?_cons', Option.getD_some]
    rw [max_eq_right ha.le]

/-- The priorities of the clients currently in a lane. -/
def lanePriorities (db : List Client) (lane : String) : List Int :=
  (db.filter (fun c => c.status == lane)).map Client.priority

/-- Invariant I1 for one lane: the multiset of priorities in the lane is
exactly {1, ..., N} where N is the lane's client count. -/
def denseLane (db : List Client) (lane : String) : Prop :=
  (lanePriorities db lane).Perm
    ((List.range (lanePriorities db lane).length).map (fun n : Nat => (n : Int) + 1))

instance (db : List Client) (lane : String) : Decidable (denseLane db lane) := by
  unfold denseLane; infer_instance

/-! ### Spec-side expected results

The following definitions transcribe the spec's prose description of each
change case (§4.1 cases 2-4); the theorems compare the engine against them. -/

/-- Spec §4.1 case 2 (priority-only change): target to `p`; with `p < o`
every other same-lane client in `[p, o-1]` incremented; with `o < p` every
other same-lane client in `[o+1, p]` decremented; everyone else untouched. -/
def rotateSpec (cid : Nat) (lane : String) (o p : Int) (c : Client) : Client :=
  if c.id = cid then { c with priority := p }
  else if p < o ∧ c.status = lane ∧ p ≤ c.priority ∧ c.priority ≤ o - 1 then
    { c with priority := c.priority + 1 }
  else if o < p ∧ c.status = lane ∧ o + 1 ≤ c.priority ∧ c.priority ≤ p then
    { c with priority := c.priority - 1 }
  else c

/-- Spec §4.1 case 3: the bottom slot of lane `lane` — one plus the maximum
existing priority, or 1 when the lane is empty. -/
def specBottom (db : List Client) (lane : String) : Int :=
  match (lanePriorities db lane).max? with
  | some m => m + 1
  | none => 1

/-- Spec §4.1 case 3 (status-only change): target moves to the bottom of the
new lane; old-lane clients below its vacated slot are pulled up; everyone
else untouched. -/
def statusOnlySpec (db : List Client) (cid : Nat) (newLane oldLane : String)
    (oldP : Int) (c : Client) : Client :=
  if c.id = cid then { c with status := newLane, priority := specBottom db newLane }
  else if c.status = oldLane ∧ oldP < c.priority then
    { c with priority := c.priority - 1 }
  else c

/-- Spec §4.1 case 4 (status-and-priority change): new-lane clients at or
below `p` pushed down, target to `(newLane, p)`, old-lane clients below the
vacated slot pulled up, no other client modified. -/
def statusAndPrioritySpec (cid : Nat) (newLane oldLane : String)
    (p oldP : Int) (c : Client) : Client :=
  if c.id = cid then { c with status := newLane, priority := p }
  else if c.status = newLane ∧ p ≤ c.priority then { c with priority := c.priority + 1 }
  else if c.status = oldLane ∧ oldP < c.priority then { c with priority := c.priority - 1 }
  else c

/-! ### Helper facts -/

/-- What `clients.find(client => client.id === id)` returns. -/
theorem find_target_spec (db0 : List Client) (cid : Nat) (client : Client)
    (h : db0.find? (fun c => c.id == cid) = some client) :
    client ∈ db0 ∧ client.id = cid := by
  refine ⟨List.mem_of_find?_eq_some h, ?_⟩
  have := List.find?_some h
  simpa using this

/-- Distinct ids make distinct list members equal when their ids agree. -/
theorem id_inj_of_nodup (db : List Client) (hids : (db.map Client.id).Nodup) :
    ∀ a ∈ db, ∀ b ∈ db, a.id = b.id → a = b := by
  intro a ha b hb hab
  exact List.inj_on_of_nodup_map hids ha hb hab

/-- Density of a lane forces its priorities to be pairwise distinct, hence a
lane-and-priority pair determines the client. -/
theorem lane_inj_of_dense (db : List Client) (lane : String)
    (hdense : denseLane db lane) :
    ∀ a ∈ db, ∀ b ∈ db, a.status = lane → b.status = lane →
      a.priority = b.priority → a = b := by
  have hnodup : (lanePriorities db lane).Nodup := by
    have hinj : Function.Injective (fun n : Nat => (n : Int) + 1) := by
      intro a b hab
      simpa using hab
    exact hdense.nodup_iff.2 (List.Nodup.map hinj (List.nodup_range _))
  intro a ha b hb hla hlb hp
  have hand : ∀ c ∈ db, c.status = lane → c ∈ db.filter (fun c => c.status == lane) := by
    intro c hc hcl
    rw [List.mem_filter]
    exact ⟨hc, by simp [hcl]⟩
  exact List.inj_on_of_nodup_map hnodup (hand a ha hla) (hand b hb hlb) hp

theorem updateStatusPriority_db (s : Store) (cid : Nat) (st : String) (p : Int) :
    (updateStatusPriority s cid st p).db =
      s.db.map (fun c => if c.id = cid then { c with status := st, priority := p } else c) :=
  rfl

/-- The status-only branch's `maxPriority + 1` equals the spec's "one plus
the maximum existing priority in the lane, or 1 when empty", as long as all
priorities are positive. -/
theorem maxLane_bottom (db0 : List Client) (L : String)
    (hpos : ∀ c ∈ db0, 0 < c.priority) :
    maxLanePriority db0 (some L) + 1 = specBottom db0 L := by
  have h1 : maxLanePriority db0 (some L) = (lanePriorities db0 L).foldl max 0 := by
    rw [maxLanePriority, maxLanePriority_foldl]
    rfl
  have h2 : ∀ x ∈ lanePriorities db0 L, 0 < x := by
    intro x hx
    rcases List.mem_map.1 hx with ⟨c, hc, rfl⟩
    exact hpos c (List.mem_of_mem_filter hc)
  rw [h1, foldl_max_pos _ h2, specBottom]
  cases hmax : (lanePriorities db0 L).max? with
  | none => simp
  | some m => simp

/-- Mapping a per-id rewrite over the database preserves the id column. -/
theorem map_update_ids (db0 : List Client) (f : Client → Client)
    (hf : ∀ c, (f c).id = c.id) :
    (db0.map f).map Client.id = db0.map Client.id := by
  rw [List.map_map]
  apply List.map_congr_left
  intro c _
  simp [Function.comp, hf]

/-- Characterization of the status-only path (`statusHasChanged && !priority`,
lines 192-230): the engine's final database equals the spec's expected result
for case 3.  `pr` is any falsy priority field (`none` or `some 0`). -/
theorem reorder_statusOnly_char (db0 : List Client) (cid : Nat) (client : Client)
    (L : String) (pr : Option Int)
    (hfind : db0.find? (fun c => c.id == cid) = some client)
    (hids : (db0.map Client.id).Nodup)
    (hpos : ∀ c ∈ db0, 0 < c.priority)
    (hL0 : L ≠ "") (hLneq : L ≠ client.status)
    (hpr : truthyPriority pr = false) :
    (reorder db0 cid (some L) pr).db =
      db0.map (statusOnlySpec db0 cid L client.status client.priority) := by
  obtain ⟨hmem, hcid⟩ := find_target_spec db0 cid client hfind
  have hinj := id_inj_of_nodup db0 hids
  have hsc : (L != "" && L != client.status) = true := by simp [hL0, hLneq]
  have hresult : reorder db0 cid (some L) pr =
      pullUp
        (updateStatusPriority ⟨db0, []⟩ cid L (maxLanePriority db0 (some L) + 1)).db
        client.status client.priority
        (updateStatusPriority ⟨db0, []⟩ cid L (maxLanePriority db0 (some L) + 1)) := by
    cases pr with
    | none =>
      simp [reorder, hfind, hsc, truthyPriority]
    | some p =>
      have hp0 : p = 0 := by
        by_contra hp
        simp [truthyPriority, hp] at hpr
      subst hp0
      simp [reorder, hfind, hsc, truthyPriority]
  set np := maxLanePriority db0 (some L) + 1 with hnp
  have hbottom : np = specBottom db0 L := maxLane_bottom db0 L hpos
  set u : Client → Client :=
    fun c => if c.id = cid then { c with status := L, priority := np } else c with hu
  have hdb1 : (updateStatusPriority ⟨db0, []⟩ cid L np).db = db0.map u := rfl
  have hdb1_ids : ((db0.map u).map Client.id).Nodup := by
    rw [map_update_ids db0 u (by
      intro c
      by_cases h : c.id = cid <;> simp [hu, h])]
    exact hids
  rw [hresult, pullUp_db, hdb1, List.map_map]
  apply List.map_congr_left
  intro c hc
  simp only [Function.comp]
  by_cases hid : c.id = cid
  · have hceq : c = client := hinj c hc client hmem (by rw [hid, hcid])
    subst hceq
    have hux : u c = { c with status := L, priority := np } := by simp [hu, hid]
    rw [hux]
    have hxmem : ({ c with status := L, priority := np } : Client) ∈ db0.map u := by
      rw [← hux]
      exact List.mem_map_of_mem u hc
    rw [pullFun_mem c.status c.priority (db0.map u) _ hxmem hdb1_ids]
    rw [if_neg (by
      rintro ⟨-, habs⟩
      exact hLneq habs)]
    simp only [statusOnlySpec]
    rw [if_pos hid, hbottom]
  · have hux : u c = c := by simp [hu, hid]
    rw [hux]
    have hxmem : c ∈ db0.map u := by
      rw [← hux]
      exact List.mem_map_of_mem u hc
    rw [pullFun_mem client.status client.priority (db0.map u) c hxmem hdb1_ids]
    simp only [statusOnlySpec]
    rw [if_neg hid]
    by_cases hcond : client.priority < c.priority ∧ c.status = client.status
    · rw [if_pos hcond, if_pos ⟨hcond.2, hcond.1⟩]
    · rw [if_neg hcond, if_neg (fun h => hcond ⟨h.2, h.1⟩)]

/-- A status change accompanied by the falsy priority `0` takes exactly the
same path as a status change with no priority at all: the request's falsy
fields make both classifications agree and the status-only branch reads no
priority. -/
theorem reorder_zero_priority_eq_none (db0 : List Client) (cid : Nat) (L : String) :
    reorder db0 cid (some L) (some 0) = reorder db0 cid (some L) none := by
  cases hfind : db0.find? (fun c => c.id == cid) with
  | none => simp [reorder, hfind]
  | some client => simp [reorder, hfind, truthyPriority]

/-! ### Claim theorems -/

/-- C6: for every client set and every reorder request whose requested status
and priority equal the target's current status and priority, no store updates
are issued (empty update log) and the returned snapshot is identical to the
input client set. -/
theorem claim_C6_noop_identity (db0 : List Client) (cid : Nat) (client : Client)
    (hfind : db0.find? (fun c => c.id == cid) = some client) :
    reorder db0 cid (some client.status) (some client.priority) = ⟨db0, []⟩ := by
  simp [reorder, hfind]

theorem claim_C6_noop_identity_witness :
    reorder [⟨1, "backlog", 1⟩] 1 (some "backlog") (some 1) =
      ⟨[⟨1, "backlog", 1⟩], []⟩ :=
  claim_C6_noop_identity [⟨1, "backlog", 1⟩] 1 ⟨1, "backlog", 1⟩ rfl

/-- C7: for every reorder call the list of client identifiers in the
resulting snapshot equals the list of identifiers in the input snapshot (so
in particular the set of identifiers is unchanged); since a `Client` consists
only of id, status and priority and the id column is preserved pointwise,
only the status and priority fields can differ. -/
theorem claim_C7_ids_preserved (db0 : List Client) (cid : Nat)
    (st : Option String) (pr : Option Int) :
    (reorder db0 cid st pr).db.map Client.id = db0.map Client.id := by
  cases hfind : db0.find? (fun c => c.id == cid) with
  | none => simp [reorder, hfind]
  | some client =>
    simp only [reorder, hfind]
    split <;> (try split) <;> (try split) <;> (try split) <;>
      simp only [pullUp_map_id, pushDown_map_id, updatePriority_map_id,
        updateStatusPriority_map_id, runUp_map_id, runDown_map_id]

/-- C10: for every reorder request that supplies a changed nonzero priority
`P` but omits the status field, the shift loops match no clients (the lane
lookup compares each row's status against the absent request status), so the
only persisted change is the target's own priority becoming `P`: exactly one
update is issued and no other row changes. -/
theorem claim_C10_omitted_status (db0 : List Client) (cid : Nat) (client : Client)
    (P : Int)
    (hfind : db0.find? (fun c => c.id == cid) = some client)
    (hP0 : P ≠ 0) (hPneq : P ≠ client.priority) :
    (reorder db0 cid none (some P)).db =
        db0.map (fun c => if c.id = cid then { c with priority := P } else c) ∧
      (reorder db0 cid none (some P)).log = [UpdateOp.setPriority cid P] := by
  have hcid : client.id = cid := (find_target_spec db0 cid client hfind).2
  have hresult : reorder db0 cid none (some P) =
      updatePriority ⟨db0, []⟩ client.id P := by
    simp only [reorder, hfind]
    have hpc : (P != 0 && P != client.priority) = true := by
      simp [hP0, hPneq]
    simp only [hpc, if_true, Bool.false_and, Bool.and_false,
      Bool.false_eq_true, if_false, Option.getD_some]
    split
    · rw [runUp_status_none]
    · rw [runDown_status_none]
  rw [hresult, hcid]
  exact ⟨rfl, rfl⟩

theorem claim_C10_omitted_status_witness :
    (reorder [⟨1, "backlog", 1⟩, ⟨2, "backlog", 2⟩] 1 none (some 2)).db =
        [⟨1, "backlog", 2⟩, ⟨2, "backlog", 2⟩] ∧
      (reorder [⟨1, "backlog", 1⟩, ⟨2, "backlog", 2⟩] 1 none (some 2)).log =
        [UpdateOp.setPriority 1 2] := by
  have h := claim_C10_omitted_status [⟨1, "backlog", 1⟩, ⟨2, "backlog", 2⟩] 1
    ⟨1, "backlog", 1⟩ 2 rfl (by decide) (by decide)
  exact ⟨by rw [h.1]; rfl, h.2⟩

/-- C4: for every status-only change of the target from its lane to lane `L`
(no priority supplied): the target's new priority equals one plus the maximum
priority among clients already in `L` (1 if `L` is empty), its status becomes
`L`, every client in the old lane with priority greater than the target's old
priority is decremented by 1, and all other clients are unchanged. -/
theorem claim_C4_status_only (db0 : List Client) (cid : Nat) (client : Client)
    (L : String)
    (hfind : db0.find? (fun c => c.id == cid) = some client)
    (hids : (db0.map Client.id).Nodup)
    (hpos : ∀ c ∈ db0, 0 < c.priority)
    (hL0 : L ≠ "") (hLneq : L ≠ client.status) :
    (reorder db0 cid (some L) none).db =
      db0.map (statusOnlySpec db0 cid L client.status client.priority) :=
  reorder_statusOnly_char db0 cid client L none hfind hids hpos hL0 hLneq rfl

theorem claim_C4_status_only_witness :
    (reorder [⟨1, "backlog", 1⟩, ⟨2, "backlog", 2⟩, ⟨4, "in-progress", 1⟩]
        1 (some "in-progress") none).db =
      [⟨1, "in-progress", 2⟩, ⟨2, "backlog", 1⟩, ⟨4, "in-progress", 1⟩] := by
  have h := claim_C4_status_only
    [⟨1, "backlog", 1⟩, ⟨2, "backlog", 2⟩, ⟨4, "in-progress", 1⟩] 1
    ⟨1, "backlog", 1⟩ "in-progress" rfl (by decide) (by decide)
    (by decide) (by decide)
  rw [h]
  rfl

/-- C9: a reorder request that supplies a new status together with the falsy
priority `0` is treated exactly as a status-only change with no priority
given: the call is indistinguishable from the priority-omitted call, and the
target lands at the bottom of the new lane (max existing priority + 1, per
the status-only spec) rather than at rank 0 or being rejected. -/
theorem claim_C9_zero_priority (db0 : List Client) (cid : Nat) (client : Client)
    (L : String)
    (hfind : db0.find? (fun c => c.id == cid) = some client)
    (hids : (db0.map Client.id).Nodup)
    (hpos : ∀ c ∈ db0, 0 < c.priority)
    (hL0 : L ≠ "") (hLneq : L ≠ client.status) :
    reorder db0 cid (some L) (some 0) = reorder db0 cid (some L) none ∧
      (reorder db0 cid (some L) (some 0)).db =
        db0.map (statusOnlySpec db0 cid L client.status client.priority) :=
  ⟨reorder_zero_priority_eq_none db0 cid L,
   reorder_statusOnly_char db0 cid client L (some 0) hfind hids hpos hL0 hLneq rfl⟩

theorem claim_C9_zero_priority_witness :
    (reorder [⟨1, "backlog", 1⟩, ⟨2, "backlog", 2⟩, ⟨4, "in-progress", 1⟩]
        1 (some "in-progress") (some 0)) =
      (reorder [⟨1, "backlog", 1⟩, ⟨2, "backlog", 2⟩, ⟨4, "in-progress", 1⟩]
        1 (some "in-progress") none) ∧
    (reorder [⟨1, "backlog", 1⟩, ⟨2, "backlog", 2⟩, ⟨4, "in-progress", 1⟩]
        1 (some "in-progress") (some 0)).db =
      [⟨1, "in-progress", 2⟩, ⟨2, "backlog", 1⟩, ⟨4, "in-progress", 1⟩] := by
  have h := claim_C9_zero_priority
    [⟨1, "backlog", 1⟩, ⟨2, "backlog", 2⟩, ⟨4, "in-progress", 1⟩] 1
    ⟨1, "backlog", 1⟩ "in-progress" rfl (by decide) (by decide)
    (by decide) (by decide)
  exact ⟨h.1, by rw [h.2]; rfl⟩

/-- An occupant found for a slot that a given database member does not occupy
has a different id (given id-injectivity). -/
theorem findSlot_occupant_ne (db0 : List Client) (lane : String)
    (hinj : ∀ a ∈ db0, ∀ b ∈ db0, a.id = b.id → a = b)
    (x : Client) (hx : x ∈ db0) (k : Int) (mk : Client)
    (hmk : findSlot db0 (some lane) k = some mk)
    (hne : ¬(x.status = lane ∧ x.priority = k)) :
    mk.id ≠ x.id := by
  intro he
  obtain ⟨hmkmem, hp, hs⟩ := findSlot_spec db0 lane k mk hmk
  have heq : mk = x := hinj mk hmkmem x hx he
  subst heq
  exact hne ⟨hs, hp⟩

/-- C3: for every priority-only change (status request equal to the target's
current lane, new priority `P ≠ 0` different from the old priority `O`) on a
database with unique ids whose target lane satisfies invariant I1: if
`P < O` every other client of that lane with priority in `[P, O-1]` is
incremented by 1, if `P > O` every other client of that lane with priority in
`[O+1, P]` is decremented by 1, the target's priority becomes `P`, and every
other client — outside that range or in another lane — keeps its priority
and status unchanged (the result is exactly `rotateSpec` mapped over the
input). -/
theorem claim_C3_priority_rotation (db0 : List Client) (cid : Nat)
    (client : Client) (P : Int)
    (hfind : db0.find? (fun c => c.id == cid) = some client)
    (hids : (db0.map Client.id).Nodup)
    (hdense : denseLane db0 client.status)
    (hP0 : P ≠ 0) (hPneq : P ≠ client.priority) :
    (reorder db0 cid (some client.status) (some P)).db =
      db0.map (rotateSpec cid client.status client.priority P) := by
  obtain ⟨hmem, hcid⟩ := find_target_spec db0 cid client hfind
  have hinj := id_inj_of_nodup db0 hids
  have hlinj := lane_inj_of_dense db0 client.status hdense
  have hresult : reorder db0 cid (some client.status) (some P) =
      updatePriority
        (if P < client.priority then
          runUp db0 (some client.status) client.priority
            ((client.priority - P).toNat) P ⟨db0, []⟩
        else
          runDown db0 (some client.status) client.priority
            ((P - client.priority).toNat) P ⟨db0, []⟩)
        client.id P := by
    simp [reorder, hfind, hP0, hPneq, truthyPriority]
  rw [hresult]
  by_cases hdir : P < client.priority
  · rw [if_pos hdir, updatePriority_db, runUp_db, List.map_map]
    set n := (client.priority - P).toNat with hndef
    have hn : (n : Int) = client.priority - P := Int.toNat_of_nonneg (by omega)
    apply List.map_congr_left
    intro c hc
    simp only [Function.comp]
    by_cases hid : c.id = cid
    · have hceq : c = client := hinj c hc client hmem (by rw [hid, hcid])
      subst hceq
      have hskip : upFun db0 (some c.status) c.priority n P c = c := by
        apply upFun_skip
        intro k hk1 hk2 mk hmk
        apply findSlot_occupant_ne db0 c.status hinj c hc k mk hmk
        rintro ⟨-, hpk⟩
        rw [hn] at hk2
        omega
      rw [hskip, if_pos rfl]
      simp only [rotateSpec]
      rw [if_pos hid]
    · have hgneg : c.id ≠ client.id := fun he => hid (he.trans hcid)
      by_cases hrange : c.status = client.status ∧ P ≤ c.priority ∧
          c.priority < client.priority
      · have hfs : findSlot db0 (some client.status) c.priority = some c :=
          findSlot_self db0 client.status c hc hrange.1 hlinj
        have hhit : upFun db0 (some client.status) client.priority n P c =
            { c with priority := c.priority + 1 } := by
          apply upFun_hit db0 (some client.status) client.priority c.priority c n P c
          · rw [hn]; omega
          · exact hrange.2.1
          · rw [hn]; omega
          · exact hfs
          · rfl
          · intro k hk1 hk2 hkj mk hmk
            apply findSlot_occupant_ne db0 client.status hinj c hc k mk hmk
            rintro ⟨-, hpk⟩
            exact hkj (by omega)
        rw [hhit, if_neg hgneg]
        simp only [rotateSpec]
        rw [if_neg hid,
          if_pos ⟨hdir, hrange.1, hrange.2.1, by omega⟩]
      · have hskip : upFun db0 (some client.status) client.priority n P c = c := by
          apply upFun_skip
          intro k hk1 hk2 mk hmk
          apply findSlot_occupant_ne db0 client.status hinj c hc k mk hmk
          rintro ⟨hsl, hpk⟩
          rw [hn] at hk2
          exact hrange ⟨hsl, by omega, by omega⟩
        rw [hskip, if_neg hgneg]
        simp only [rotateSpec]
        rw [if_neg hid,
          if_neg (by
            rintro ⟨-, hsl, hp1, hp2⟩
            exact hrange ⟨hsl, hp1, by omega⟩),
          if_neg (by
            rintro ⟨habs, -⟩
            omega)]
  · have hdir' : client.priority < P := by
      rcases lt_trichotomy P client.priority with h | h | h
      · exact absurd h hdir
      · exact absurd h hPneq
      · exact h
    rw [if_neg hdir, updatePriority_db, runDown_db, List.map_map]
    set n := (P - client.priority).toNat with hndef
    have hn : (n : Int) = P - client.priority := Int.toNat_of_nonneg (by omega)
    apply List.map_congr_left
    intro c hc
    simp only [Function.comp]
    by_cases hid : c.id = cid
    · have hceq : c = client := hinj c hc client hmem (by rw [hid, hcid])
      subst hceq
      have hskip : downFun db0 (some c.status) c.priority n P c = c := by
        apply downFun_skip
        intro k hk1 hk2 mk hmk
        apply findSlot_occupant_ne db0 c.status hinj c hc k mk hmk
        rintro ⟨-, hpk⟩
        rw [hn] at hk1
        omega
      rw [hskip, if_pos rfl]
      simp only [rotateSpec]
      rw [if_pos hid]
    · have hgneg : c.id ≠ client.id := fun he => hid (he.trans hcid)
      by_cases hrange : c.status = client.status ∧ client.priority < c.priority ∧
          c.priority ≤ P
      · have hfs : findSlot db0 (some client.status) c.priority = some c :=
          findSlot_self db0 client.status c hc hrange.1 hlinj
        have hhit : downFun db0 (some client.status) client.priority n P c =
            { c with priority := c.priority - 1 } := by
          apply downFun_hit db0 (some client.status) client.priority c.priority c n P c
          · rw [hn]; omega
          · rw [hn]; omega
          · exact hrange.2.2
          · exact hfs
          · rfl
          · intro k hk1 hk2 hkj mk hmk
            apply findSlot_occupant_ne db0 client.status hinj c hc k mk hmk
            rintro ⟨-, hpk⟩
            exact hkj (by omega)
        rw [hhit, if_neg hgneg]
        simp only [rotateSpec]
        rw [if_neg hid,
          if_neg (by
            rintro ⟨habs, -⟩
            omega),
          if_pos ⟨hdir', hrange.1, by omega, hrange.2.2⟩]
      · have hskip : downFun db0 (some client.status) client.priority n P c = c := by
          apply downFun_skip
          intro k hk1 hk2 mk hmk
          apply findSlot_occupant_ne db0 client.status hinj c hc k mk hmk
          rintro ⟨hsl, hpk⟩
          rw [hn] at hk1
          exact hrange ⟨hsl, by omega, by omega⟩
        rw [hskip, if_neg hgneg]
        simp only [rotateSpec]
        rw [if_neg hid,
          if_neg (by
            rintro ⟨habs, -⟩
            omega),
          if_neg (by
            rintro ⟨-, hsl, hp1, hp2⟩
            exact hrange ⟨hsl, by omega, hp2⟩)]

theorem claim_C3_priority_rotation_witness :
    (reorder [⟨1, "backlog", 1⟩, ⟨2, "backlog", 2⟩, ⟨3, "backlog", 3⟩]
        1 (some "backlog") (some 3)).db =
      [⟨1, "backlog", 3⟩, ⟨2, "backlog", 1⟩, ⟨3, "backlog", 2⟩] := by
  have h := claim_C3_priority_rotation
    [⟨1, "backlog", 1⟩, ⟨2, "backlog", 2⟩, ⟨3, "backlog", 3⟩] 1
    ⟨1, "backlog", 1⟩ 3 rfl (by decide) (by decide) (by decide) (by decide)
  rw [h]
  rfl

/-- C8: for a priority-only move from old priority `O` to new priority `P`
(here `P < O`; the mirror loop runs for a move from `P` up to `O`), each
shift loop advances its counter by exactly one per iteration whether or not a
client occupies the current slot, so it terminates after exactly `|P − O|`
iterations — extra fuel beyond that changes nothing — and an unoccupied slot
produces no update (the store passes through the iteration untouched) without
aborting the loop. -/
theorem claim_C8_shift_loop_termination (snapshot : List Client)
    (st : Option String) (O P : Int) (hPO : P < O) :
    (∀ (s : Store) (extra : Nat),
        runUp snapshot st O ((O - P).toNat + extra) P s =
          runUp snapshot st O ((O - P).toNat) P s) ∧
    (∀ (fuel : Nat) (cur : Int) (s : Store), cur ≠ O →
        findSlot snapshot st cur = none →
        runUp snapshot st O (fuel + 1) cur s =
          runUp snapshot st O fuel (cur + 1) s) ∧
    (∀ (s : Store) (extra : Nat),
        runDown snapshot st P ((O - P).toNat) O s =
          runDown snapshot st P ((O - P).toNat + extra) O s) ∧
    (∀ (fuel : Nat) (cur : Int) (s : Store), cur ≠ P →
        findSlot snapshot st cur = none →
        runDown snapshot st P (fuel + 1) cur s =
          runDown snapshot st P fuel (cur - 1) s) := by
  have hcast : ((O - P).toNat : Int) = O - P := Int.toNat_of_nonneg (by omega)
  refine ⟨?_, ?_, ?_, ?_⟩
  · intro s extra
    exact runUp_fuel_stable snapshot st O ((O - P).toNat) P s (by omega) extra
  · intro fuel cur s hco hfs
    simp only [runUp, if_neg hco, hfs]
  · intro s extra
    exact (runDown_fuel_stable snapshot st P ((O - P).toNat) O s (by omega) extra).symm
  · intro fuel cur s hcp hfs
    simp only [runDown, if_neg hcp, hfs]

theorem claim_C8_shift_loop_termination_witness :
    (runUp ([] : List Client) none 3 (2 + 5) 1 ⟨[], []⟩ =
        runUp ([] : List Client) none 3 2 1 ⟨[], []⟩) ∧
      (runUp ([] : List Client) none 3 (0 + 1) 1 ⟨[], []⟩ =
        runUp ([] : List Client) none 3 0 (1 + 1) ⟨[], []⟩) := by
  have h := claim_C8_shift_loop_termination ([] : List Client) none 3 1 (by decide)
  exact ⟨h.1 ⟨[], []⟩ 5, h.2.1 0 1 ⟨[], []⟩ (by decide) rfl⟩

/-! ### The double-branch defect

When a request changes both status and priority, the source runs the
priority-rotation branch (lines 151-191, whose slot lookups compare against
the *new* lane) and then the status-and-priority branch (lines 232-261).
For a move to a new lane with a priority above the old one, the rotation
decrements new-lane clients strictly between the two priorities, and the
status-and-priority branch does not undo it.  The input below has dense
lanes (`backlog` = {1}, `in-progress` = {1,2,3}) and moves client 1 from
backlog/1 to in-progress/3. -/

def bugDb : List Client :=
  [⟨1, "backlog", 1⟩, ⟨2, "in-progress", 1⟩, ⟨3, "in-progress", 2⟩,
   ⟨4, "in-progress", 3⟩]

/-- C1 refuted on the code: both populated lanes of `bugDb` satisfy I1 on
entry and the request (existing id 1, valid lane, positive priority 3) is a
legal reorder, yet after the call the `in-progress` lane holds priorities
{3, 1, 1, 4} — a duplicate and a gap — so the lane is no longer
`{1, ..., N}`. -/
theorem claim_C1_density_violated :
    denseLane bugDb "backlog" ∧ denseLane bugDb "in-progress" ∧
      (reorder bugDb 1 (some "in-progress") (some 3)).db =
        [⟨1, "in-progress", 3⟩, ⟨2, "in-progress", 1⟩, ⟨3, "in-progress", 1⟩,
         ⟨4, "in-progress", 4⟩] ∧
      ¬ denseLane (reorder bugDb 1 (some "in-progress") (some 3)).db
        "in-progress" := by
  refine ⟨by decide, by decide, rfl, by decide⟩

/-- C2 refuted on the code: a request changing both status and priority does
not apply only the status-and-priority case's adjustments.  The update log
shows the priority-rotation branch also ran (its three `setPriority` writes
precede the status-and-priority writes), and the final database differs from
the status-and-priority case's expected result: client 3 was decremented by
the rotation. -/
theorem claim_C2_not_exclusive :
    (reorder bugDb 1 (some "in-progress") (some 3)).log =
      [UpdateOp.setPriority 4 2, UpdateOp.setPriority 3 1,
       UpdateOp.setPriority 1 3, UpdateOp.setPriority 4 4,
       UpdateOp.setStatusPriority 1 "in-progress" 3] ∧
    (reorder bugDb 1 (some "in-progress") (some 3)).db ≠
      bugDb.map (statusAndPrioritySpec 1 "in-progress" "backlog" 3 1) := by
  exact ⟨rfl, by decide⟩

/-- C5 refuted on the code: in the status-and-priority change of client 1
from backlog/1 to in-progress/3, client 3 — already in the new lane with
priority 2 < 3, not the target, not in the old lane — is nevertheless
modified: its priority drops from 2 to 1, contradicting "no other client is
modified". -/
theorem claim_C5_bystander_modified :
    bugDb.find? (fun c => c.id == 3) = some ⟨3, "in-progress", 2⟩ ∧
      (reorder bugDb 1 (some "in-progress") (some 3)).db.find?
          (fun c => c.id == 3) = some ⟨3, "in-progress", 1⟩ :=
  ⟨rfl, rfl⟩

end Shiptivitas
